import Mathlib

/-!
# Verification of the Volumito state reconciliation and time-value resolver

This file is a shallow embedding, in Lean 4, of the core logic of
`volumito.py` (class `VolumitoV1`): the status-merge logic with the
anti-bounce window (`_merge_status`), the heuristic elapsed/duration
resolver used by the renderer (`refresh_ui`), the volume clamp
(`_change_volume`), the play/pause toggle (`_toggle_play`) and the
relative seek (`_seek_relative`).

Modelling conventions:

* Python floats are modelled as exact rationals (`ℚ`).  The literal
  `1.1` of the source is therefore the exact rational `11/10`, and
  `1.0/1000.0` is `1/1000`.  No claim in this development depends on
  IEEE-754 rounding behaviour.
* JSON-like payloads are modelled by the recursive type `Raw`
  (null / number / string / boolean / ordered mapping / sequence).
  Python `dict`s are modelled as ordered association lists; key
  assignment (`d[k] = v`) replaces the first binding of `k` in place
  or appends a fresh binding, and `dict.update` folds assignment over
  the incoming items, exactly like the CPython semantics on
  duplicate-free dictionaries.
* Python's broad `try/except` parsing idioms are modelled by
  `Option`-returning parsers; "the conversion raised" is `none`.
* `float(str)` is modelled by `parsePyFloat` covering sign, integer,
  fraction and exponent parts; the IEEE special spellings
  (`inf`/`nan`) and underscore digit separators are not representable
  in `ℚ` and parse to `none`.  No claim exercises those spellings.
* Wall-clock time (`time.time()`) is passed explicitly as a rational
  `now` argument.
-/

/-- A JSON-like payload value, as received from the remote player:
`None` / number / string / boolean / ordered mapping / sequence. -/
inductive Raw where
  | null : Raw
  | num (q : ℚ) : Raw
  | str (s : String) : Raw
  | bool (b : Bool) : Raw
  | obj (fields : List (String × Raw)) : Raw
  | arr (items : List Raw) : Raw

/-- `True` exactly on mapping payloads: Python `isinstance(v, dict)`. -/
def Raw.isObj : Raw → Bool
  | .obj _ => true
  | _ => false

/-- Python `d[k]` / `k in d` on an ordered association list: the first
binding of `k`, if any. -/
def lookup : List (String × Raw) → String → Option Raw
  | [], _ => none
  | (k', v) :: rest, k => if k' = k then some v else lookup rest k

/-- Python `d[k] = v`: replace the (first) binding of `k` in place,
keeping its position, or append a fresh binding at the end. -/
def setKey : List (String × Raw) → String → Raw → List (String × Raw)
  | [], k, v => [(k, v)]
  | (k', v') :: rest, k, v =>
      if k' = k then (k, v) :: rest else (k', v') :: setKey rest k v

/-- Python `old.update(new)`: assign every item of `new` into `old`,
in order. -/
def updateDict (old new : List (String × Raw)) : List (String × Raw) :=
  new.foldl (fun d p => setKey d p.1 p.2) old

/-- Numeric value of the digit characters `cs` read in base 10. -/
def digitsToNat (cs : List Char) : ℕ :=
  cs.foldl (fun a c => a * 10 + (c.toNat - 48)) 0

/-- Consume an optional leading sign; returns (isNegative, rest). -/
def readSign : List Char → Bool × List Char
  | '-' :: rest => (true, rest)
  | '+' :: rest => (false, rest)
  | cs => (false, cs)

/-- The exponent suffix of a Python float literal: optional sign and a
nonempty digit run consuming the whole remainder. -/
def parseExpPart (mant : ℚ) (neg : Bool) (cs : List Char) : Option ℚ :=
  let sr := readSign cs
  let ds := sr.2.takeWhile Char.isDigit
  let rest := sr.2.dropWhile Char.isDigit
  if ds.isEmpty ∨ ¬ rest.isEmpty then none
  else
    let e := digitsToNat ds
    let v := if sr.1 then mant / 10 ^ e else mant * 10 ^ e
    some (if neg then -v else v)

/-- Python `float(s)` on a string: strip whitespace, optional sign,
(digits [`.` digits] | `.` digits) and an optional exponent part.
`inf`/`nan` and underscore separators are modelled as failures. -/
def parsePyFloat (s : String) : Option ℚ :=
  let sr := readSign s.trim.data
  let ip := sr.2.takeWhile Char.isDigit
  let cs1 := sr.2.dropWhile Char.isDigit
  let fpRest : List Char × List Char :=
    match cs1 with
    | '.' :: rest => (rest.takeWhile Char.isDigit, rest.dropWhile Char.isDigit)
    | _ => ([], cs1)
  if ip.isEmpty ∧ fpRest.1.isEmpty then none
  else
    let mant : ℚ := (digitsToNat ip : ℚ) + (digitsToNat fpRest.1 : ℚ) / 10 ^ fpRest.1.length
    match fpRest.2 with
    | [] => some (if sr.1 then -mant else mant)
    | 'e' :: rest => parseExpPart mant sr.1 rest
    | 'E' :: rest => parseExpPart mant sr.1 rest
    | _ => none

/-- Python `int(s)` on a string: strip whitespace, optional sign and a
nonempty digit run consuming the whole remainder. -/
def parsePyInt (s : String) : Option ℤ :=
  let sr := readSign s.trim.data
  let ds := sr.2.takeWhile Char.isDigit
  let rest := sr.2.dropWhile Char.isDigit
  if ds.isEmpty ∨ ¬ rest.isEmpty then none
  else some (if sr.1 then -(digitsToNat ds : ℤ) else (digitsToNat ds : ℤ))

/-- Python `int(x)` on a number: truncation toward zero. -/
def ratTrunc (q : ℚ) : ℤ := if 0 ≤ q then ⌊q⌋ else ⌈q⌉

/-- Python `float(v)` on a raw value: numbers and booleans convert,
strings go through the float grammar, everything else raises
(`none`).  This is the conversion used by `_merge_status`. -/
def pyFloat : Raw → Option ℚ
  | .num q => some q
  | .bool b => some (if b then 1 else 0)
  | .str s => parsePyFloat s
  | _ => none

/-- Python `int(v)` on a raw value, as used by `_change_volume`. -/
def pyInt : Raw → Option ℤ
  | .num q => some (ratTrunc q)
  | .bool b => some (if b then 1 else 0)
  | .str s => parsePyInt s
  | _ => none

/-- `_parse_time` of `refresh_ui`: `float(v)`, falling back for
strings to a colon-delimited timecode (`H:M:S`, `M:S`, or the first
token of a longer split).  Non-scalar values always fail both steps:
`str(dict)`/`str(list)` renderings start with a brace or bracket, so
every colon-part of them fails `float`. -/
def parseColon (s : String) : Option ℚ := do
  let parts ← (s.splitOn ":").mapM parsePyFloat
  match parts with
  | [a, b, c] => pure (a * 3600 + b * 60 + c)
  | [a, b] => pure (a * 60 + b)
  | a :: _ => pure a
  | [] => none

def parseTime : Raw → Option ℚ
  | .null => none
  | .num q => some q
  | .bool b => some (if b then 1 else 0)
  | .str s =>
      match parsePyFloat s with
      | some q => some q
      | none => parseColon s
  | .obj _ => none
  | .arr _ => none

/-- `_to_number` of `refresh_ui`: `_parse_time` followed by `float`,
which is the identity on an already-numeric result. -/
def toNumber : Raw → Option ℚ := parseTime

/-- The mutable state shared by the poller, the dispatcher and the
renderer: `self.status` and `self._recent_seek`.  A recent seek is
`(targetSeconds, issuedAtTimestamp)`. -/
structure VState where
  status : List (String × Raw)
  recentSeek : Option (ℚ × ℚ)

/-- Process start: `self.status = {}`, `self._recent_seek = None`. -/
def initState : VState := ⟨[], none⟩

/-- The position-family key names, in the fixed priority order used by
both `_merge_status` and the candidate collection of `refresh_ui`. -/
def seekKeys : List String := ["seek", "position", "elapsed", "progress"]

/-- The reported position extracted by `_merge_status`: the first
position-family key present whose value converts under `float`,
divided by 1000 when the converted value exceeds 1000.  A key that is
present but fails to convert is skipped (`except: continue`). -/
def findReported : List String → List (String × Raw) → Option ℚ
  | [], _ => none
  | k :: ks, new =>
      match lookup new k with
      | none => findReported ks new
      | some v =>
          match pyFloat v with
          | some rv => some (if rv > 1000 then rv / 1000 else rv)
          | none => findReported ks new

def reportedOf (new : List (String × Raw)) : Option ℚ :=
  findReported seekKeys new

/-- `cleaned = dict(new)` with the four position-family keys popped. -/
def stripSeek (fields : List (String × Raw)) : List (String × Raw) :=
  fields.filter (fun p => !(decide (p.1 ∈ seekKeys)))

/-- `_merge_status(new)`, with the wall clock passed explicitly.
Non-mapping payloads return immediately.  With a recent seek younger
than 3 seconds: if the reported position is within 2 seconds of the
target, the whole snapshot is merged and the recent seek cleared;
otherwise the position-family keys are stripped before merging and
the recent seek is kept.  Otherwise the snapshot merges normally (the
recent-seek record is left untouched). -/
def mergeStatus (st : VState) (new : Raw) (now : ℚ) : VState :=
  match new with
  | .obj fields =>
      match st.recentSeek with
      | some pe =>
          if now - pe.2 < 3 then
            match reportedOf fields with
            | some r =>
                if |r - pe.1| ≤ 2 then ⟨updateDict st.status fields, none⟩
                else ⟨updateDict st.status (stripSeek fields), st.recentSeek⟩
            | none => ⟨updateDict st.status (stripSeek fields), st.recentSeek⟩
          else ⟨updateDict st.status fields, st.recentSeek⟩
      | none => ⟨updateDict st.status fields, st.recentSeek⟩
  | _ => st

/-- Lower-casing of a character, ASCII range (the key names of the
remote payloads are ASCII; Python's full-unicode `str.lower` agrees
with this on them). -/
def lowerChar (c : Char) : Char :=
  if 'A' ≤ c ∧ c ≤ 'Z' then Char.ofNat (c.toNat + 32) else c

/-- Python `s.lower()` (ASCII range). -/
def lowerStr (s : String) : String := ⟨s.data.map lowerChar⟩

/-- Whether the first character list starts the second. -/
def charsLead : List Char → List Char → Bool
  | [], _ => true
  | _ :: _, [] => false
  | c :: cs, d :: ds => c = d && charsLead cs ds

/-- Whether the needle occurs contiguously inside the haystack. -/
def charsHave (needle : List Char) : List Char → Bool
  | [] => needle.isEmpty
  | d :: ds => charsLead needle (d :: ds) || charsHave needle ds

/-- Python substring test `needle in hay`. -/
def strContains (hay needle : String) : Bool :=
  charsHave needle.data hay.data

mutual

/-- `_deep_find_all` of `refresh_ui`: depth-first walk appending, for
each mapping entry, its value once per candidate substring contained
(case-insensitively) in the key, then recursing into the value;
sequences recurse into their items; scalars contribute nothing. -/
def deepFindAll (obj : Raw) (cands : List String) : List Raw :=
  match obj with
  | .obj fields => deepFindFields fields cands
  | .arr items => deepFindItems items cands
  | _ => []

def deepFindFields (fields : List (String × Raw)) (cands : List String) : List Raw :=
  match fields with
  | [] => []
  | (k, v) :: rest =>
      (cands.filter (fun c => strContains (lowerStr k) c)).map (fun _ => v)
        ++ deepFindAll v cands ++ deepFindFields rest cands

def deepFindItems (items : List Raw) (cands : List String) : List Raw :=
  match items with
  | [] => []
  | v :: rest => deepFindAll v cands ++ deepFindItems rest cands

end

/-- Top-level duration key names checked exactly (case-sensitively). -/
def durKeys : List String :=
  ["duration", "trackDuration", "totalTime", "length", "tracklength"]

/-- Lower-case substrings used by the deep search for positions. -/
def seekSubstrs : List String := ["seek", "position", "elapsed", "progress"]

/-- Lower-case substrings used by the deep search for durations. -/
def durSubstrs : List String :=
  ["duration", "trackduration", "totaltime", "length", "tracklength", "time", "total"]

/-- Position candidates: values of the four exact top-level keys, then
every deep-search match over the whole snapshot. -/
def seekCandidatesOf (s : List (String × Raw)) : List Raw :=
  seekKeys.filterMap (fun k => lookup s k) ++ deepFindAll (.obj s) seekSubstrs

/-- Duration candidates, analogously. -/
def durCandidatesOf (s : List (String × Raw)) : List Raw :=
  durKeys.filterMap (fun k => lookup s k) ++ deepFindAll (.obj s) durSubstrs

/-- The admissibility filter of the cross-product search: the scaled
seek lies between 0 and 1.1 times the scaled duration, and the scaled
duration is positive and under ten hours. -/
def admissible (svs dvs : ℚ) : Prop :=
  0 ≤ svs ∧ svs ≤ dvs * (11 / 10) ∧ 0 < dvs ∧ dvs < 36000

instance (svs dvs : ℚ) : Decidable (admissible svs dvs) :=
  inferInstanceAs (Decidable (_ ∧ _ ∧ _ ∧ _))

/-- The two unit-scale hypotheses `(1.0, 1.0/1000.0)`. -/
def factors : List ℚ := [1, 1 / 1000]

/-- The surviving `(svs, dvs, sv_factor, dv_factor)` combinations for
one parsed seek/duration candidate pair, in generation order. -/
def combos (svn dvn : ℚ) : List (ℚ × ℚ × ℚ × ℚ) :=
  factors.flatMap (fun svf =>
    factors.filterMap (fun dvf =>
      if admissible (svn * svf) (dvn * dvf) then
        some (svn * svf, dvn * dvf, svf, dvf)
      else none))

/-- The full `pairs` list of `refresh_ui`: candidates that fail to
parse are skipped, the rest contribute their combinations in loop
order. -/
def pairsOf (seekC durC : List Raw) : List (ℚ × ℚ × ℚ × ℚ) :=
  seekC.flatMap (fun svRaw =>
    match toNumber svRaw with
    | none => []
    | some svn =>
        durC.flatMap (fun dvRaw =>
          match toNumber dvRaw with
          | none => []
          | some dvn => combos svn dvn))

/-- The sort key ordering of `pairs.sort`: prefer `dv_factor == 1.0`,
then smaller scaled duration.  A stable sort under this (total,
transitive) relation is exactly Python's `list.sort` on the key
`(0 if dv_factor == 1.0 else 1, dvs)`. -/
def pairLe (x y : ℚ × ℚ × ℚ × ℚ) : Prop :=
  (if x.2.2.2 = 1 then (0 : ℚ) else 1) < (if y.2.2.2 = 1 then (0 : ℚ) else 1)
    ∨ ((if x.2.2.2 = 1 then (0 : ℚ) else 1) = (if y.2.2.2 = 1 then (0 : ℚ) else 1)
        ∧ x.2.1 ≤ y.2.1)

instance : DecidableRel pairLe := fun _ _ =>
  inferInstanceAs (Decidable (_ ∨ _))

/-- The fallback duration scan: first candidate lying in `(0, 36000)`
unscaled, else — when the raw value exceeds 1000 — its millisecond
rescaling if that lies in `(0, 36000)`. -/
def fbDur : List Raw → Option ℚ
  | [] => none
  | v :: rest =>
      match toNumber v with
      | none => fbDur rest
      | some dvn =>
          if 0 < dvn ∧ dvn < 36000 then some dvn
          else if dvn > 1000 ∧ 0 < dvn / 1000 ∧ dvn / 1000 < 36000 then some (dvn / 1000)
          else fbDur rest

/-- The first fallback seek scan: first parseable candidate `svn` with
`0 ≤ svn ≤ dur·1.1` (the bound is `+∞` when no fallback duration was
found; a found fallback duration is never 0, so the `or` of the
source cannot pick `inf` for a zero duration). -/
def fbSeek1 (durS : Option ℚ) : List Raw → Option ℚ
  | [] => none
  | v :: rest =>
      match toNumber v with
      | none => fbSeek1 durS rest
      | some svn =>
          match durS with
          | some d2 =>
              if 0 ≤ svn ∧ svn ≤ d2 * (11 / 10) then some svn
              else fbSeek1 (some d2) rest
          | none => if 0 ≤ svn then some svn else fbSeek1 none rest

/-- The final fallback seek scan: a candidate above 1000 is rescaled
to seconds and stops the loop; any other parseable candidate is
recorded without stopping (the source has no `break` there). -/
def fbSeek2 : List Raw → Option ℚ → Option ℚ
  | [], acc => acc
  | v :: rest, acc =>
      match toNumber v with
      | none => fbSeek2 rest acc
      | some svn =>
          if svn > 1000 then some (svn / 1000) else fbSeek2 rest (some svn)

/-- The elapsed/duration resolver of `refresh_ui`, from candidate
collection to the final `(seek_s, dur_s)` values used for display:
the stably-sorted cross product if any combination survives, else the
independent fallbacks with the duration defaulting to 0. -/
def resolveTimes (s : List (String × Raw)) : Option ℚ × ℚ :=
  let seekC := seekCandidatesOf s
  let durC := durCandidatesOf s
  let pairs := pairsOf seekC durC
  match (pairs.insertionSort pairLe).head? with
  | some p => (some p.1, p.2.1)
  | none =>
      let durS := fbDur durC
      let seekS :=
        match fbSeek1 durS seekC with
        | some v => some v
        | none => fbSeek2 seekC none
      (seekS, durS.getD 0)

/-- `_change_volume(delta)`: read the current volume through `int`
(any failure, including a missing key, yields 0), clamp the new value
into `[0, 100]` and write it back. -/
def changeVolume (st : VState) (delta : ℤ) : VState :=
  let cur : ℤ :=
    match lookup st.status "volume" with
    | some v => (pyInt v).getD 0
    | none => 0
  let newVol : ℤ := max 0 (min 100 (cur + delta))
  { st with status := setKey st.status "volume" (.num (newVol : ℚ)) }

/-- Python `str(v)` as used by `_toggle_play` on the stored playback
status.  It is exact for the string, boolean and `None` cases; the
numeric and container renderings are simplified (no verified claim
depends on them — only on which key `_toggle_play` writes). -/
def pyStr : Raw → String
  | .null => "None"
  | .bool b => if b then "True" else "False"
  | .str s => s
  | .num q => toString q
  | .obj _ => "dict"
  | .arr _ => "list"

/-- `_toggle_play`: if the lower-cased current status contains
`play`, switch to `pause`, else to `play`; write the new state. -/
def togglePlay (st : VState) : VState :=
  let cur := lowerStr (pyStr ((lookup st.status "status").getD (.str "")))
  let newState := if strContains cur "play" then "pause" else "play"
  { st with status := setKey st.status "status" (.str newState) }

/-- `_to_seconds_simple` of `_seek_relative`: `float(v)` with the
heuristic millisecond rescaling above 1000, falling back for strings
to the colon timecode parse (which is not rescaled). -/
def toSecondsSimple : Raw → Option ℚ
  | .null => none
  | .num q => some (if q > 1000 then q / 1000 else q)
  | .bool b => some (if b then 1 else 0)
  | .str s =>
      match parsePyFloat s with
      | some f => some (if f > 1000 then f / 1000 else f)
      | none => parseColon s
  | .obj _ => none
  | .arr _ => none

/-- Python `isinstance(v, (int, float))`: numbers and booleans
(`bool` is a subclass of `int`). -/
def isNumericRaw : Raw → Bool
  | .num _ => true
  | .bool _ => true
  | _ => false

/-- The numeric value of a numeric raw (under `float`). -/
def numVal : Raw → ℚ
  | .num q => q
  | .bool b => if b then 1 else 0
  | _ => 0

/-- The first value among the given keys present in the snapshot. -/
def firstKeyVal (s : List (String × Raw)) : List String → Option Raw
  | [] => none
  | k :: ks =>
      match lookup s k with
      | some v => some v
      | none => firstKeyVal s ks

/-- `_seek_relative(delta_seconds)`: compute the new position from the
current snapshot, clamp it to `[0, duration]` when a duration is
known, write `seek` (in milliseconds when the original raw seek was a
number above 1000) and `position`, and record the recent seek with
the current wall clock. -/
def seekRelative (st : VState) (deltaSeconds : ℚ) (now : ℚ) : VState :=
  let s := st.status
  let seekS : ℚ := ((firstKeyVal s seekKeys).bind toSecondsSimple).getD 0
  let durS : Option ℚ :=
    match (firstKeyVal s durKeys).bind toSecondsSimple with
    | some q => if q = 0 then none else some q
    | none => none
  let newPos0 := max 0 (seekS + deltaSeconds)
  let newPos := match durS with
    | some d2 => min newPos0 d2
    | none => newPos0
  let seekWrite : ℤ :=
    match lookup s "seek" with
    | some v =>
        if isNumericRaw v ∧ numVal v > 1000 then ratTrunc (newPos * 1000)
        else ratTrunc newPos
    | none => ratTrunc newPos
  { status := setKey (setKey s "seek" (.num (seekWrite : ℚ))) "position"
      (.num ((ratTrunc newPos : ℤ) : ℚ)),
    recentSeek := some (newPos, now) }

/-- The public operations reachable from the UI and the poller, each
tagged with the wall-clock instant at which it runs where relevant. -/
inductive Op where
  | merge (payload : Raw) (now : ℚ) : Op
  | volDelta (delta : ℤ) : Op
  | toggle : Op
  | seekRel (delta : ℚ) (now : ℚ) : Op

def applyOp (st : VState) : Op → VState
  | .merge p now => mergeStatus st p now
  | .volDelta d => changeVolume st d
  | .toggle => togglePlay st
  | .seekRel d now => seekRelative st d now

def runOps (ops : List Op) : VState := ops.foldl applyOp initState

/-- A raw value that is a number in `[0, 100]`. -/
def GoodVol (v : Raw) : Prop := ∃ q : ℚ, v = .num q ∧ 0 ≤ q ∧ q ≤ 100

/-- The stored volume, when present, is a number in `[0, 100]`. -/
def VolumeOKList (l : List (String × Raw)) : Prop :=
  ∀ v, lookup l "volume" = some v → GoodVol v

def VolumeOK (st : VState) : Prop := VolumeOKList st.status

/-- A merge payload whose top-level `volume` entries (if any) report a
number in `[0, 100]`; non-mapping payloads are unconstrained. -/
def GoodVolumePayload : Raw → Prop
  | .obj fields => ∀ v, ("volume", v) ∈ fields → GoodVol v
  | _ => True

/-- An operation that never injects an out-of-range volume: every
merged snapshot is a `GoodVolumePayload` (local operations are
unconstrained — they clamp or do not touch the volume). -/
def GoodOp : Op → Prop
  | .merge p _ => GoodVolumePayload p
  | _ => True

/-! ## Dictionary lemmas -/

theorem lookup_setKey_self (d : List (String × Raw)) (k : String) (v : Raw) :
    lookup (setKey d k v) k = some v := by
  induction d with
  | nil => simp [setKey, lookup]
  | cons p rest ih =>
      obtain ⟨k', v'⟩ := p
      by_cases h : k' = k
      · simp [setKey, h, lookup]
      · simp [setKey, h, lookup, ih]

theorem lookup_setKey_ne (d : List (String × Raw)) (k : String) (v : Raw)
    (k' : String) (h : k' ≠ k) : lookup (setKey d k v) k' = lookup d k' := by
  have hkk : k ≠ k' := fun he => h he.symm
  induction d with
  | nil => simp [setKey, lookup, hkk]
  | cons p rest ih =>
      obtain ⟨k1, v1⟩ := p
      by_cases h1 : k1 = k
      · subst h1
        simp [setKey, lookup, hkk]
      · simp [setKey, h1, lookup, ih]

theorem updateDict_nil (old : List (String × Raw)) : updateDict old [] = old := rfl

theorem updateDict_cons (old : List (String × Raw)) (p : String × Raw)
    (rest : List (String × Raw)) :
    updateDict old (p :: rest) = updateDict (setKey old p.1 p.2) rest := rfl

theorem lookup_updateDict_of_not_mem (old new : List (String × Raw)) (k : String)
    (h : ∀ p ∈ new, p.1 ≠ k) : lookup (updateDict old new) k = lookup old k := by
  induction new generalizing old with
  | nil => rfl
  | cons p rest ih =>
      rw [updateDict_cons, ih _ (fun q hq => h q (List.mem_cons_of_mem p hq)),
        lookup_setKey_ne _ _ _ _ (fun he => h p (List.mem_cons_self p rest) he.symm)]

theorem lookup_updateDict_mem :
    ∀ (new old : List (String × Raw)) (k : String) (v : Raw),
      (new.map Prod.fst).Nodup → lookup new k = some v →
      lookup (updateDict old new) k = some v
  | [], _, k, _, _, h => by simp [lookup] at h
  | (k1, v1) :: rest, old, k, v, hnd, h => by
      simp only [List.map_cons, List.nodup_cons] at hnd
      by_cases h1 : k1 = k
      · subst h1
        have hv : v1 = v := by simpa [lookup] using h
        subst hv
        rw [updateDict_cons]
        rw [lookup_updateDict_of_not_mem]
        · exact lookup_setKey_self old k1 v1
        · intro q hq he
          exact hnd.1 (he ▸ List.mem_map_of_mem Prod.fst hq)
      · simp only [lookup, if_neg h1] at h
        rw [updateDict_cons]
        exact lookup_updateDict_mem rest (setKey old k1 v1) k v hnd.2 h

theorem stripSeek_nil : stripSeek [] = [] := rfl

theorem stripSeek_cons (k1 : String) (v1 : Raw) (rest : List (String × Raw)) :
    stripSeek ((k1, v1) :: rest)
      = if k1 ∈ seekKeys then stripSeek rest else (k1, v1) :: stripSeek rest := by
  by_cases h : k1 ∈ seekKeys <;> simp [stripSeek, List.filter_cons, h]

theorem lookup_stripSeek (fields : List (String × Raw)) (k : String)
    (hk : k ∉ seekKeys) : lookup (stripSeek fields) k = lookup fields k := by
  induction fields with
  | nil => rfl
  | cons p rest ih =>
      obtain ⟨k1, v1⟩ := p
      rw [stripSeek_cons]
      by_cases h1 : k1 ∈ seekKeys
      · have hne : k1 ≠ k := fun he => hk (he ▸ h1)
        rw [if_pos h1, ih]
        simp [lookup, hne]
      · rw [if_neg h1]
        simp only [lookup]
        by_cases h2 : k1 = k
        · simp [h2]
        · simp [h2, ih]

theorem stripSeek_keys_not_mem (fields : List (String × Raw)) (p : String × Raw)
    (hp : p ∈ stripSeek fields) : p.1 ∉ seekKeys := by
  have := List.of_mem_filter hp
  simpa using this

theorem stripSeek_nodup (fields : List (String × Raw))
    (hnd : (fields.map Prod.fst).Nodup) : ((stripSeek fields).map Prod.fst).Nodup :=
  hnd.sublist (List.Sublist.map Prod.fst (List.filter_sublist fields))

/-! ## Resolver lemmas -/

theorem admissible_of_mem_combos (p : ℚ × ℚ × ℚ × ℚ) (svn dvn : ℚ)
    (h : p ∈ combos svn dvn) : admissible p.1 p.2.1 := by
  simp only [combos, List.mem_flatMap, List.mem_filterMap] at h
  obtain ⟨svf, _, dvf, _, hif⟩ := h
  by_cases hp : admissible (svn * svf) (dvn * dvf)
  · rw [if_pos hp] at hif
    obtain rfl := Option.some.inj hif
    exact hp
  · rw [if_neg hp] at hif
    exact Option.noConfusion hif

theorem admissible_of_mem_pairsOf (p : ℚ × ℚ × ℚ × ℚ) (seekC durC : List Raw)
    (h : p ∈ pairsOf seekC durC) : admissible p.1 p.2.1 := by
  simp only [pairsOf, List.mem_flatMap] at h
  obtain ⟨sv, _, h2⟩ := h
  cases hsv : toNumber sv with
  | none => rw [hsv] at h2; simp at h2
  | some svn =>
      rw [hsv] at h2
      simp only [List.mem_flatMap] at h2
      obtain ⟨dv, _, h3⟩ := h2
      cases hdv : toNumber dv with
      | none => rw [hdv] at h3; simp at h3
      | some dvn => rw [hdv] at h3; exact admissible_of_mem_combos p svn dvn h3

theorem head?_insertionSort_mem {α : Type} (r : α → α → Prop) [DecidableRel r]
    (l : List α) (p : α) (h : (l.insertionSort r).head? = some p) : p ∈ l := by
  have hmem : p ∈ l.insertionSort r := by
    cases hs : l.insertionSort r with
    | nil => rw [hs] at h; exact Option.noConfusion h
    | cons q m =>
        rw [hs] at h
        simp only [List.head?, Option.some.injEq] at h
        subst h
        exact List.mem_cons_self q m
  exact (List.mem_insertionSort r).mp hmem

theorem eq_nil_of_insertionSort_head?_none {α : Type} (r : α → α → Prop)
    [DecidableRel r] (l : List α) (h : (l.insertionSort r).head? = none) :
    l = [] := by
  cases hs : l.insertionSort r with
  | nil =>
      have hperm := List.perm_insertionSort r l
      rw [hs] at hperm
      exact (hperm.symm.eq_nil)
  | cons q m => rw [hs] at h; exact Option.noConfusion h

theorem fbDur_bounds :
    ∀ (l : List Raw) (d : ℚ), fbDur l = some d → 0 < d ∧ d < 36000
  | [], d, h => by simp [fbDur] at h
  | v :: rest, d, h => by
      cases htv : toNumber v with
      | none =>
          simp only [fbDur, htv] at h
          exact fbDur_bounds rest d h
      | some dvn =>
          simp only [fbDur, htv] at h
          by_cases h1 : 0 < dvn ∧ dvn < 36000
          · rw [if_pos h1] at h
            obtain rfl := Option.some.inj h
            exact h1
          · rw [if_neg h1] at h
            by_cases h2 : dvn > 1000 ∧ 0 < dvn / 1000 ∧ dvn / 1000 < 36000
            · rw [if_pos h2] at h
              obtain rfl := Option.some.inj h
              exact h2.2
            · rw [if_neg h2] at h
              exact fbDur_bounds rest d h

theorem resolveTimes_pair_path (s : List (String × Raw)) (p : ℚ × ℚ × ℚ × ℚ)
    (h : ((pairsOf (seekCandidatesOf s) (durCandidatesOf s)).insertionSort
        pairLe).head? = some p) :
    resolveTimes s = (some p.1, p.2.1) := by
  simp only [resolveTimes]
  rw [h]

theorem resolveTimes_fallback (s : List (String × Raw))
    (h : pairsOf (seekCandidatesOf s) (durCandidatesOf s) = []) :
    resolveTimes s
      = (match fbSeek1 (fbDur (durCandidatesOf s)) (seekCandidatesOf s) with
          | some v => some v
          | none => fbSeek2 (seekCandidatesOf s) none,
          (fbDur (durCandidatesOf s)).getD 0) := by
  simp only [resolveTimes, h, List.insertionSort, List.head?]

/-! ## C5: resolver example -/

/-- C5: on the snapshot with `seek = 45000` and `duration = 180` the
resolver returns elapsed 45 and duration 180 (seek read as
milliseconds, duration as seconds). -/
theorem c5_resolver_example :
    resolveTimes [("seek", .num 45000), ("duration", .num 180)]
      = (some 45, 180) := by
  with_unfolding_all decide

/-! ## C7: resolved-pair bounds -/

/-- C7 (amended): whenever the resolver reports a nonzero duration it
lies in `(0, 36000)`; and whenever the cross-product search succeeds
(the `pairs` list is nonempty) the resolved pair additionally
satisfies `0 ≤ elapsed ≤ duration · 1.1`.  (On the fallback path the
elapsed bounds can fail — see the counterexample.) -/
theorem c7_resolved_bounds (s : List (String × Raw)) :
    ((resolveTimes s).2 ≠ 0 → 0 < (resolveTimes s).2 ∧ (resolveTimes s).2 < 36000)
    ∧ (pairsOf (seekCandidatesOf s) (durCandidatesOf s) ≠ [] →
        ∃ e, (resolveTimes s).1 = some e ∧ 0 ≤ e
          ∧ e ≤ (resolveTimes s).2 * (11 / 10)
          ∧ 0 < (resolveTimes s).2 ∧ (resolveTimes s).2 < 36000) := by
  cases hh : ((pairsOf (seekCandidatesOf s) (durCandidatesOf s)).insertionSort
      pairLe).head? with
  | some p =>
      have hres := resolveTimes_pair_path s p hh
      have hmem := head?_insertionSort_mem pairLe _ p hh
      have hpl := admissible_of_mem_pairsOf p _ _ hmem
      obtain ⟨h1, h2, h3, h4⟩ := hpl
      rw [hres]
      exact ⟨fun _ => ⟨h3, h4⟩, fun _ => ⟨p.1, rfl, h1, h2, h3, h4⟩⟩
  | none =>
      have hpairs := eq_nil_of_insertionSort_head?_none pairLe _ hh
      have hres := resolveTimes_fallback s hpairs
      constructor
      · intro hd0
        rw [hres] at hd0 ⊢
        cases hfd : fbDur (durCandidatesOf s) with
        | none => simp [hfd] at hd0
        | some d => simpa [hfd] using fbDur_bounds _ d hfd
      · intro hne
        exact absurd hpairs hne

/-- Witness for C7: the bounds instantiated on the disambiguation
example, where the cross-product search succeeds. -/
theorem c7_resolved_bounds_witness :
    (0 < (resolveTimes [("seek", .num 45000), ("duration", .num 180)]).2
      ∧ (resolveTimes [("seek", .num 45000), ("duration", .num 180)]).2 < 36000)
    ∧ ∃ e, (resolveTimes [("seek", .num 45000), ("duration", .num 180)]).1 = some e
        ∧ 0 ≤ e
        ∧ e ≤ (resolveTimes [("seek", .num 45000), ("duration", .num 180)]).2 * (11 / 10)
        ∧ 0 < (resolveTimes [("seek", .num 45000), ("duration", .num 180)]).2
        ∧ (resolveTimes [("seek", .num 45000), ("duration", .num 180)]).2 < 36000 := by
  have h := c7_resolved_bounds [("seek", .num 45000), ("duration", .num 180)]
  exact ⟨h.1 (by with_unfolding_all decide), h.2 (by with_unfolding_all decide)⟩

/-- Counterexample to C7 as stated: on `seek = -5`, `duration = 100`
every cross-product combination is rejected and the final fallback
loop accepts the negative candidate unchecked, so the resolver
reports elapsed −5 with duration 100, violating `0 ≤ elapsed`. -/
theorem c7_counterexample :
    resolveTimes [("seek", .num (-5)), ("duration", .num 100)] = (some (-5), 100)
    ∧ ¬ (0 ≤ (-5 : ℚ)) := by
  constructor
  · with_unfolding_all decide
  · norm_num

/-! ## C1: unit invariance of the resolver -/

theorem filterMap_pair {α β : Type} (f : α → Option β) (x y : α) :
    List.filterMap f [x, y] = (f x).toList ++ (f y).toList := by
  cases hx : f x <;> cases hy : f y <;>
    simp [List.filterMap_cons, hx, hy]

theorem combos_eval (svn dvn : ℚ) :
    combos svn dvn
      = ((if admissible (svn * 1) (dvn * 1) then
            some ((svn * 1, dvn * 1, 1, 1) : ℚ × ℚ × ℚ × ℚ) else none).toList
        ++ (if admissible (svn * 1) (dvn * (1 / 1000)) then
            some ((svn * 1, dvn * (1 / 1000), 1, 1 / 1000) : ℚ × ℚ × ℚ × ℚ)
          else none).toList)
        ++ ((if admissible (svn * (1 / 1000)) (dvn * 1) then
            some ((svn * (1 / 1000), dvn * 1, 1 / 1000, 1) : ℚ × ℚ × ℚ × ℚ)
          else none).toList
        ++ (if admissible (svn * (1 / 1000)) (dvn * (1 / 1000)) then
            some ((svn * (1 / 1000), dvn * (1 / 1000), 1 / 1000, 1 / 1000)
              : ℚ × ℚ × ℚ × ℚ) else none).toList) := by
  simp only [combos, factors, List.flatMap_cons, List.flatMap_nil,
    List.append_nil, filterMap_pair]

theorem pairsOf_twoKey (a b : ℚ) :
    pairsOf [Raw.num a, Raw.num a] [Raw.num b, Raw.num b]
      = combos a b ++ (combos a b ++ (combos a b ++ combos a b)) := by
  simp [pairsOf, toNumber, parseTime]

/-- Resolution of a two-key snapshot whose `pairs` list is nonempty
and whose first combination is least under the sort key: a stable
sort puts that first combination in front. -/
theorem resolveTwoKey (a b : ℚ) (e1 : ℚ × ℚ × ℚ × ℚ) (rest : List (ℚ × ℚ × ℚ × ℚ))
    (hp : pairsOf [Raw.num a, Raw.num a] [Raw.num b, Raw.num b] = e1 :: rest)
    (hall : ∀ y ∈ rest, pairLe e1 y) :
    resolveTimes [("seek", Raw.num a), ("duration", Raw.num b)]
      = (some e1.1, e1.2.1) := by
  apply resolveTimes_pair_path
  rw [show seekCandidatesOf [("seek", Raw.num a), ("duration", Raw.num b)]
      = [Raw.num a, Raw.num a] from rfl]
  rw [show durCandidatesOf [("seek", Raw.num a), ("duration", Raw.num b)]
      = [Raw.num b, Raw.num b] from rfl]
  rw [hp, List.insertionSort_cons pairLe hall]
  rfl

/-- A two-key snapshot contributes four identical candidate blocks
(the top-level key and its deep-search duplicate, crossed); the head
combination of a block that is least within the block is least in the
whole `pairs` list. -/
theorem resolveTwoKey4 (a b : ℚ) (e1 : ℚ × ℚ × ℚ × ℚ) (t : List (ℚ × ℚ × ℚ × ℚ))
    (hc : combos a b = e1 :: t)
    (hallC : ∀ y ∈ combos a b, pairLe e1 y) :
    resolveTimes [("seek", Raw.num a), ("duration", Raw.num b)]
      = (some e1.1, e1.2.1) := by
  apply resolveTwoKey a b e1 (t ++ (combos a b ++ (combos a b ++ combos a b)))
  · rw [pairsOf_twoKey, hc]
    rfl
  · intro y hy
    rcases List.mem_append.mp hy with h | h
    · exact hallC y (hc ▸ List.mem_cons_of_mem e1 h)
    · rcases List.mem_append.mp h with h2 | h2
      · exact hallC y h2
      · rcases List.mem_append.mp h2 with h3 | h3 <;> exact hallC y h3

theorem resolve_variant_base (s d : ℚ) (h0 : 0 ≤ s) (hsd : s ≤ d)
    (h36 : 36 ≤ d) (hdhi : d < 36000)
    (hcond : s = 0 ∨ (11 / 10) * d < 1000 * s) :
    resolveTimes [("seek", Raw.num s), ("duration", Raw.num d)] = (some s, d) := by
  have hd0 : (0 : ℚ) < d := by linarith
  have hp1 : admissible (s * 1) (d * 1) :=
    ⟨by linarith, by linarith, by linarith, by linarith⟩
  have hp3 : admissible (s * (1 / 1000)) (d * 1) :=
    ⟨by linarith, by linarith, by linarith, by linarith⟩
  have hp4 : admissible (s * (1 / 1000)) (d * (1 / 1000)) :=
    ⟨by linarith, by linarith, by linarith, by linarith⟩
  have hA : pairLe (s * 1, d * 1, 1, 1) (s * 1, d * 1, 1, 1) := by
    simp only [pairLe]
    norm_num
  have hB : pairLe (s * 1, d * 1, 1, 1) (s * (1 / 1000), d * 1, 1 / 1000, 1) := by
    simp only [pairLe]
    norm_num
  have hC : pairLe (s * 1, d * 1, 1, 1)
      (s * (1 / 1000), d * (1 / 1000), 1 / 1000, 1 / 1000) := by
    simp only [pairLe]
    norm_num
  rcases hcond with rfl | hbig
  · have hp2 : admissible (0 * 1) (d * (1 / 1000)) :=
      ⟨by linarith, by linarith, by linarith, by linarith⟩
    have hc : combos 0 d
        = [(0 * 1, d * 1, 1, 1), (0 * 1, d * (1 / 1000), 1, 1 / 1000),
           (0 * (1 / 1000), d * 1, 1 / 1000, 1),
           (0 * (1 / 1000), d * (1 / 1000), 1 / 1000, 1 / 1000)] := by
      rw [combos_eval, if_pos hp1, if_pos hp2, if_pos hp3, if_pos hp4]
      rfl
    have hres := resolveTwoKey4 0 d _ _ hc (by
      rw [hc]
      intro y hy
      simp only [List.mem_cons, List.not_mem_nil, or_false] at hy
      rcases hy with rfl | rfl | rfl | rfl
      all_goals first | exact hA | exact hB | exact hC)
    rw [hres]
    simp only [Prod.mk.injEq, Option.some.injEq]
    constructor <;> ring
  · have hn2 : ¬ admissible (s * 1) (d * (1 / 1000)) := by
      rintro ⟨-, h2, -, -⟩
      linarith
    have hc : combos s d
        = [(s * 1, d * 1, 1, 1), (s * (1 / 1000), d * 1, 1 / 1000, 1),
           (s * (1 / 1000), d * (1 / 1000), 1 / 1000, 1 / 1000)] := by
      rw [combos_eval, if_pos hp1, if_neg hn2, if_pos hp3, if_pos hp4]
      rfl
    have hres := resolveTwoKey4 s d _ _ hc (by
      rw [hc]
      intro y hy
      simp only [List.mem_cons, List.not_mem_nil, or_false] at hy
      rcases hy with rfl | rfl | rfl
      all_goals first | exact hA | exact hB | exact hC)
    rw [hres]
    simp only [Prod.mk.injEq, Option.some.injEq]
    constructor <;> ring

theorem resolve_variant_msSeek (s d : ℚ) (h0 : 0 ≤ s) (hsd : s ≤ d)
    (h36 : 36 ≤ d) (hdhi : d < 36000)
    (hcond : s = 0 ∨ (11 / 10) * d < 1000 * s) :
    resolveTimes [("seek", Raw.num (s * 1000)), ("duration", Raw.num d)]
      = (some s, d) := by
  have hd0 : (0 : ℚ) < d := by linarith
  rcases hcond with rfl | hbig
  · have hp1 : admissible (0 * 1000 * 1) (d * 1) :=
      ⟨by linarith, by linarith, by linarith, by linarith⟩
    have hp2 : admissible (0 * 1000 * 1) (d * (1 / 1000)) :=
      ⟨by linarith, by linarith, by linarith, by linarith⟩
    have hp3 : admissible (0 * 1000 * (1 / 1000)) (d * 1) :=
      ⟨by linarith, by linarith, by linarith, by linarith⟩
    have hp4 : admissible (0 * 1000 * (1 / 1000)) (d * (1 / 1000)) :=
      ⟨by linarith, by linarith, by linarith, by linarith⟩
    have hc : combos (0 * 1000) d
        = [(0 * 1000 * 1, d * 1, 1, 1), (0 * 1000 * 1, d * (1 / 1000), 1, 1 / 1000),
           (0 * 1000 * (1 / 1000), d * 1, 1 / 1000, 1),
           (0 * 1000 * (1 / 1000), d * (1 / 1000), 1 / 1000, 1 / 1000)] := by
      rw [combos_eval, if_pos hp1, if_pos hp2, if_pos hp3, if_pos hp4]
      rfl
    have hA : pairLe (0 * 1000 * 1, d * 1, 1, 1) (0 * 1000 * 1, d * 1, 1, 1) := by
      simp only [pairLe]
      norm_num
    have hB : pairLe (0 * 1000 * 1, d * 1, 1, 1)
        (0 * 1000 * 1, d * (1 / 1000), 1, 1 / 1000) := by
      simp only [pairLe]
      norm_num
    have hres := resolveTwoKey4 (0 * 1000) d _ _ hc (by
      rw [hc]
      intro y hy
      simp only [List.mem_cons, List.not_mem_nil, or_false] at hy
      rcases hy with rfl | rfl | rfl | rfl
      all_goals first | exact hA | exact hB)
    rw [hres]
    simp only [Prod.mk.injEq, Option.some.injEq]
    constructor <;> ring
  · have hn1 : ¬ admissible (s * 1000 * 1) (d * 1) := by
      rintro ⟨-, h2, -, -⟩
      linarith
    have hn2 : ¬ admissible (s * 1000 * 1) (d * (1 / 1000)) := by
      rintro ⟨-, h2, -, -⟩
      linarith
    have hp3 : admissible (s * 1000 * (1 / 1000)) (d * 1) :=
      ⟨by linarith, by linarith, by linarith, by linarith⟩
    have hn4 : ¬ admissible (s * 1000 * (1 / 1000)) (d * (1 / 1000)) := by
      rintro ⟨-, h2, -, -⟩
      linarith
    have hc : combos (s * 1000) d
        = [(s * 1000 * (1 / 1000), d * 1, 1 / 1000, 1)] := by
      rw [combos_eval, if_neg hn1, if_neg hn2, if_pos hp3, if_neg hn4]
      rfl
    have hres := resolveTwoKey4 (s * 1000) d _ _ hc (by
      rw [hc]
      intro y hy
      simp only [List.mem_cons, List.not_mem_nil, or_false] at hy
      rcases hy with rfl
      simp only [pairLe]
      norm_num)
    rw [hres]
    simp only [Prod.mk.injEq, Option.some.injEq]
    constructor <;> ring

theorem resolve_variant_msDur (s d : ℚ) (h0 : 0 ≤ s) (hsd : s ≤ d)
    (h36 : 36 ≤ d) (hdhi : d < 36000) :
    resolveTimes [("seek", Raw.num s), ("duration", Raw.num (d * 1000))]
      = (some s, d) := by
  have hd0 : (0 : ℚ) < d := by linarith
  have hn1 : ¬ admissible (s * 1) (d * 1000 * 1) := by
    rintro ⟨-, -, -, h4⟩
    linarith
  have hp2 : admissible (s * 1) (d * 1000 * (1 / 1000)) :=
    ⟨by linarith, by linarith, by linarith, by linarith⟩
  have hn3 : ¬ admissible (s * (1 / 1000)) (d * 1000 * 1) := by
    rintro ⟨-, -, -, h4⟩
    linarith
  have hp4 : admissible (s * (1 / 1000)) (d * 1000 * (1 / 1000)) :=
    ⟨by linarith, by linarith, by linarith, by linarith⟩
  have hc : combos s (d * 1000)
      = [(s * 1, d * 1000 * (1 / 1000), 1, 1 / 1000),
         (s * (1 / 1000), d * 1000 * (1 / 1000), 1 / 1000, 1 / 1000)] := by
    rw [combos_eval, if_neg hn1, if_pos hp2, if_neg hn3, if_pos hp4]
    rfl
  have hA : pairLe (s * 1, d * 1000 * (1 / 1000), 1, 1 / 1000)
      (s * 1, d * 1000 * (1 / 1000), 1, 1 / 1000) := by
    simp only [pairLe]
    norm_num
  have hres := resolveTwoKey4 s (d * 1000) _ _ hc (by
    rw [hc]
    intro y hy
    simp only [List.mem_cons, List.not_mem_nil, or_false] at hy
    rcases hy with rfl | rfl
    all_goals exact hA)
  rw [hres]
  simp only [Prod.mk.injEq, Option.some.injEq]
  constructor <;> ring

theorem resolve_variant_msBoth (s d : ℚ) (h0 : 0 ≤ s) (hsd : s ≤ d)
    (h36 : 36 ≤ d) (hdhi : d < 36000)
    (hcond : s = 0 ∨ (11 / 10) * d < 1000 * s) :
    resolveTimes [("seek", Raw.num (s * 1000)), ("duration", Raw.num (d * 1000))]
      = (some s, d) := by
  have hd0 : (0 : ℚ) < d := by linarith
  have hn1 : ¬ admissible (s * 1000 * 1) (d * 1000 * 1) := by
    rintro ⟨-, -, -, h4⟩
    linarith
  have hn3 : ¬ admissible (s * 1000 * (1 / 1000)) (d * 1000 * 1) := by
    rintro ⟨-, -, -, h4⟩
    linarith
  have hp4 : admissible (s * 1000 * (1 / 1000)) (d * 1000 * (1 / 1000)) :=
    ⟨by linarith, by linarith, by linarith, by linarith⟩
  rcases hcond with rfl | hbig
  · have hp2 : admissible (0 * 1000 * 1) (d * 1000 * (1 / 1000)) :=
      ⟨by linarith, by linarith, by linarith, by linarith⟩
    have hc : combos (0 * 1000) (d * 1000)
        = [(0 * 1000 * 1, d * 1000 * (1 / 1000), 1, 1 / 1000),
           (0 * 1000 * (1 / 1000), d * 1000 * (1 / 1000), 1 / 1000, 1 / 1000)] := by
      rw [combos_eval, if_neg hn1, if_pos hp2, if_neg hn3, if_pos hp4]
      rfl
    have hA : pairLe (0 * 1000 * 1, d * 1000 * (1 / 1000), 1, 1 / 1000)
        (0 * 1000 * 1, d * 1000 * (1 / 1000), 1, 1 / 1000) := by
      simp only [pairLe]
      norm_num
    have hres := resolveTwoKey4 (0 * 1000) (d * 1000) _ _ hc (by
      rw [hc]
      intro y hy
      simp only [List.mem_cons, List.not_mem_nil, or_false] at hy
      rcases hy with rfl | rfl
      all_goals exact hA)
    rw [hres]
    simp only [Prod.mk.injEq, Option.some.injEq]
    constructor <;> ring
  · have hn2 : ¬ admissible (s * 1000 * 1) (d * 1000 * (1 / 1000)) := by
      rintro ⟨-, h2, -, -⟩
      linarith
    have hc : combos (s * 1000) (d * 1000)
        = [(s * 1000 * (1 / 1000), d * 1000 * (1 / 1000), 1 / 1000, 1 / 1000)] := by
      rw [combos_eval, if_neg hn1, if_neg hn2, if_neg hn3, if_pos hp4]
      rfl
    have hres := resolveTwoKey4 (s * 1000) (d * 1000) _ _ hc (by
      rw [hc]
      intro y hy
      simp only [List.mem_cons, List.not_mem_nil, or_false] at hy
      rcases hy with rfl
      simp only [pairLe]
      norm_num)
    rw [hres]
    simp only [Prod.mk.injEq, Option.some.injEq]
    constructor <;> ring

/-- C1 (amended): unit invariance of the resolver holds on the
restricted region `36 ≤ duration < 36000`, `0 ≤ seek ≤ duration`, and
`seek = 0` or `1000·seek > 1.1·duration`: all four unit-variant
snapshots resolve exactly to `(seek, duration)`.  Outside that region
the property fails — see the counterexample, where a small seek keeps
its millisecond variant admissible unscaled and wins the tie. -/
theorem c1_unit_invariance (s d : ℚ) (h0 : 0 ≤ s) (hsd : s ≤ d)
    (h36 : 36 ≤ d) (hdhi : d < 36000)
    (hcond : s = 0 ∨ (11 / 10) * d < 1000 * s) :
    resolveTimes [("seek", Raw.num s), ("duration", Raw.num d)] = (some s, d)
    ∧ resolveTimes [("seek", Raw.num (s * 1000)), ("duration", Raw.num d)]
        = (some s, d)
    ∧ resolveTimes [("seek", Raw.num s), ("duration", Raw.num (d * 1000))]
        = (some s, d)
    ∧ resolveTimes [("seek", Raw.num (s * 1000)), ("duration", Raw.num (d * 1000))]
        = (some s, d) :=
  ⟨resolve_variant_base s d h0 hsd h36 hdhi hcond,
    resolve_variant_msSeek s d h0 hsd h36 hdhi hcond,
    resolve_variant_msDur s d h0 hsd h36 hdhi,
    resolve_variant_msBoth s d h0 hsd h36 hdhi hcond⟩

/-- Witness for C1 (amended): seek 30, duration 100. -/
theorem c1_unit_invariance_witness :
    resolveTimes [("seek", Raw.num 30), ("duration", Raw.num 100)] = (some 30, 100)
    ∧ resolveTimes [("seek", Raw.num (30 * 1000)), ("duration", Raw.num 100)]
        = (some 30, 100)
    ∧ resolveTimes [("seek", Raw.num 30), ("duration", Raw.num (100 * 1000))]
        = (some 30, 100)
    ∧ resolveTimes [("seek", Raw.num (30 * 1000)),
        ("duration", Raw.num (100 * 1000))] = (some 30, 100) :=
  c1_unit_invariance 30 100 (by norm_num) (by norm_num) (by norm_num)
    (by norm_num) (Or.inr (by norm_num))

/-- Counterexample to C1 as stated: seek 1, duration 10000 (inside
the claimed region `0 ≤ seek ≤ duration`, `0 < duration < 36000`).
The plain snapshot resolves to elapsed 1, but the seek-in-milliseconds
snapshot resolves to elapsed 1000 — a discrepancy of 999 seconds, far
beyond rounding. -/
theorem c1_unit_invariance_counterexample :
    resolveTimes [("seek", Raw.num 1), ("duration", Raw.num 10000)]
      = (some 1, 10000)
    ∧ resolveTimes [("seek", Raw.num (1 * 1000)), ("duration", Raw.num 10000)]
      = (some 1000, 10000)
    ∧ (1 : ℚ) ≠ 1000 := by
  refine ⟨?_, ?_, by norm_num⟩
  · have hc : combos 1 10000
        = [((1 : ℚ) * 1, (10000 : ℚ) * 1, 1, 1),
           ((1 : ℚ) * 1, (10000 : ℚ) * (1 / 1000), 1, 1 / 1000),
           ((1 : ℚ) * (1 / 1000), (10000 : ℚ) * 1, 1 / 1000, 1),
           ((1 : ℚ) * (1 / 1000), (10000 : ℚ) * (1 / 1000), 1 / 1000, 1 / 1000)] := by
      rw [combos_eval, if_pos (by constructor <;> norm_num [admissible]),
        if_pos (by constructor <;> norm_num [admissible]),
        if_pos (by constructor <;> norm_num [admissible]),
        if_pos (by constructor <;> norm_num [admissible])]
      rfl
    have hres := resolveTwoKey4 1 10000 _ _ hc (by
      rw [hc]
      intro y hy
      simp only [List.mem_cons, List.not_mem_nil, or_false] at hy
      rcases hy with rfl | rfl | rfl | rfl <;>
        (simp only [pairLe]; norm_num))
    rw [hres]
    norm_num
  · have hc : combos ((1 : ℚ) * 1000) 10000
        = [((1 : ℚ) * 1000 * 1, (10000 : ℚ) * 1, 1, 1),
           ((1 : ℚ) * 1000 * (1 / 1000), (10000 : ℚ) * 1, 1 / 1000, 1),
           ((1 : ℚ) * 1000 * (1 / 1000), (10000 : ℚ) * (1 / 1000),
            1 / 1000, 1 / 1000)] := by
      rw [combos_eval, if_pos (by constructor <;> norm_num [admissible]),
        if_neg (by simp only [admissible]; norm_num),
        if_pos (by constructor <;> norm_num [admissible]),
        if_pos (by constructor <;> norm_num [admissible])]
      rfl
    have hres := resolveTwoKey4 (1 * 1000) 10000 _ _ hc (by
      rw [hc]
      intro y hy
      simp only [List.mem_cons, List.not_mem_nil, or_false] at hy
      rcases hy with rfl | rfl | rfl <;>
        (simp only [pairLe]; norm_num))
    rw [hres]
    norm_num

/-! ## C8: malformed payloads -/

/-- C8: a non-mapping payload leaves the state (canonical snapshot and
pending-edit record) completely unchanged, and the merge total
function raises nothing. -/
theorem c8_malformed_payload (st : VState) (p : Raw) (now : ℚ)
    (h : p.isObj = false) : mergeStatus st p now = st := by
  cases p <;> first | rfl | (exfalso; simp [Raw.isObj] at h)

/-- Witness for C8: merging a string payload into a nonempty state. -/
theorem c8_malformed_payload_witness :
    mergeStatus ⟨[("title", .str "t")], none⟩ (.str "oops") 0
      = ⟨[("title", .str "t")], none⟩ :=
  c8_malformed_payload _ _ _ rfl

/-! ## C9: volume clamp -/

theorem ratTrunc_intCast (v : ℤ) : ratTrunc ((v : ℤ) : ℚ) = v := by
  unfold ratTrunc
  split <;> simp

/-- C9: with an integer current volume `v`, the volume-change
operation writes exactly `max 0 (min 100 (v + delta))`. -/
theorem c9_volume_clamp (st : VState) (v delta : ℤ)
    (h : lookup st.status "volume" = some (.num (v : ℚ))) :
    lookup (changeVolume st delta).status "volume"
      = some (.num ((max 0 (min 100 (v + delta)) : ℤ) : ℚ)) := by
  simp [changeVolume, h, pyInt, ratTrunc_intCast, lookup_setKey_self]

/-- Witness for C9: volume 99 with delta +2 clamps to 100, and volume
1 with delta −5 clamps to 0. -/
theorem c9_volume_clamp_witness :
    lookup (changeVolume ⟨[("volume", .num 99)], none⟩ 2).status "volume"
        = some (.num 100)
    ∧ lookup (changeVolume ⟨[("volume", .num 1)], none⟩ (-5)).status "volume"
        = some (.num 0) := by
  constructor
  · have h := c9_volume_clamp ⟨[("volume", .num 99)], none⟩ 99 2
      (by simp only [lookup, if_pos rfl, Option.some.injEq, Raw.num.injEq]
          norm_num)
    rw [show (max 0 (min 100 ((99 : ℤ) + 2)) : ℤ) = 100 from by decide] at h
    rw [h]
    norm_num
  · have h := c9_volume_clamp ⟨[("volume", .num 1)], none⟩ 1 (-5)
      (by simp only [lookup, if_pos rfl, Option.some.injEq, Raw.num.injEq]
          norm_num)
    rw [show (max 0 (min 100 ((1 : ℤ) + -5)) : ℤ) = 0 from by decide] at h
    rw [h]
    norm_num

/-! ## C2: early reconciliation -/

/-- C2: with an active recent seek younger than 3 seconds and a
reported position within 2 seconds of the target, the whole incoming
snapshot is merged (nothing stripped) and the pending edit clears. -/
theorem c2_early_reconciliation (st : VState) (fields : List (String × Raw))
    (now target ts r : ℚ) (hact : st.recentSeek = some (target, ts))
    (hage : now - ts < 3) (hrep : reportedOf fields = some r)
    (htol : |r - target| ≤ 2) :
    mergeStatus st (.obj fields) now = ⟨updateDict st.status fields, none⟩ := by
  simp [mergeStatus, hact, hage, hrep, htol]

/-- Witness for C2: target 60 issued at t=0, snapshot at t=1 reporting
position 59 (within tolerance) merges fully and clears the edit. -/
theorem c2_early_reconciliation_witness :
    mergeStatus ⟨[], some (60, 0)⟩ (.obj [("position", .num 59)]) 1
      = ⟨[("position", .num 59)], none⟩ := by
  have h := c2_early_reconciliation ⟨[], some (60, 0)⟩ [("position", .num 59)]
    1 60 0 59 rfl (by norm_num) (by decide) (by norm_num)
  exact h

/-! ## C3: anti-bounce frame property -/

/-- C3: with an active recent seek younger than 3 seconds whose
reported position is absent or off-target by more than 2 seconds, the
merge applies the incoming snapshot with the position-family keys
stripped: the pending edit survives, the stored position-family
values are untouched, and every other incoming key is merged. -/
theorem c3_anti_bounce (st : VState) (fields : List (String × Raw))
    (now target ts : ℚ) (hact : st.recentSeek = some (target, ts))
    (hage : now - ts < 3)
    (hrep : ∀ r, reportedOf fields = some r → 2 < |r - target|) :
    (mergeStatus st (.obj fields) now).recentSeek = st.recentSeek
    ∧ (mergeStatus st (.obj fields) now).status
        = updateDict st.status (stripSeek fields)
    ∧ (∀ k ∈ seekKeys,
        lookup (mergeStatus st (.obj fields) now).status k = lookup st.status k)
    ∧ (∀ k v, k ∉ seekKeys → (fields.map Prod.fst).Nodup →
        lookup fields k = some v →
        lookup (mergeStatus st (.obj fields) now).status k = some v) := by
  have hm : mergeStatus st (.obj fields) now
      = ⟨updateDict st.status (stripSeek fields), st.recentSeek⟩ := by
    cases hr : reportedOf fields with
    | none => simp [mergeStatus, hact, hage, hr]
    | some r =>
        have := hrep r hr
        simp [mergeStatus, hact, hage, hr, not_le.mpr this]
  refine ⟨by rw [hm], by rw [hm], ?_, ?_⟩
  · intro k hk
    rw [hm]
    exact lookup_updateDict_of_not_mem _ _ _
      (fun p hp he => stripSeek_keys_not_mem fields p hp (he ▸ hk))
  · intro k v hk hnd hv
    rw [hm]
    exact lookup_updateDict_mem _ _ _ _ (stripSeek_nodup fields hnd)
      ((lookup_stripSeek fields k hk).trans hv)

/-- Witness for C3: target 60 issued at t=0, snapshot at t=1 reporting
position 10 (outside tolerance): the stored seek value stays 60, the
title still merges, and the pending edit survives. -/
theorem c3_anti_bounce_witness :
    (mergeStatus ⟨[("seek", .num 60)], some (60, 0)⟩
        (.obj [("position", .num 10), ("title", .str "x")]) 1).recentSeek
      = some (60, 0)
    ∧ lookup (mergeStatus ⟨[("seek", .num 60)], some (60, 0)⟩
        (.obj [("position", .num 10), ("title", .str "x")]) 1).status "seek"
      = some (.num 60)
    ∧ lookup (mergeStatus ⟨[("seek", .num 60)], some (60, 0)⟩
        (.obj [("position", .num 10), ("title", .str "x")]) 1).status "title"
      = some (.str "x") := by
  have h := c3_anti_bounce ⟨[("seek", .num 60)], some (60, 0)⟩
    [("position", .num 10), ("title", .str "x")] 1 60 0 rfl (by norm_num)
    (by intro r hr
        rw [show reportedOf [("position", .num 10), ("title", .str "x")]
            = some 10 from by decide] at hr
        injection hr with hr
        subst hr
        norm_num)
  refine ⟨h.1, ?_, ?_⟩
  · have := h.2.2.1 "seek" (by decide)
    rw [this]
    rfl
  · exact h.2.2.2 "title" (.str "x") (by decide) (by decide) rfl

/-! ## C4: pending-edit expiry -/

/-- C4 (amended): with a recent seek of age at least 3 seconds, the
merge is unconditional — the canonical snapshot is updated exactly as
if no pending edit existed — but the pending-edit record itself is
not cleared by the code: it survives untouched (and, time being
monotone, stays forever inert). -/
theorem c4_expiry (st : VState) (fields : List (String × Raw))
    (now target ts : ℚ) (hact : st.recentSeek = some (target, ts))
    (hage : 3 ≤ now - ts) :
    mergeStatus st (.obj fields) now
      = ⟨updateDict st.status fields, st.recentSeek⟩
    ∧ (mergeStatus st (.obj fields) now).status
      = (mergeStatus ⟨st.status, none⟩ (.obj fields) now).status := by
  have h3 : ¬ (now - ts < 3) := not_lt.mpr hage
  constructor <;> simp [mergeStatus, hact, h3]

/-- Counterexample to C4 as stated: after an expired-window merge the
pending-edit record is *not* cleared — it still holds the old target,
even though the snapshot adopted the reported position. -/
theorem c4_expiry_counterexample :
    (mergeStatus ⟨[], some (60, 0)⟩ (.obj [("position", .num 12)]) (7/2)).recentSeek
        = some (60, 0)
    ∧ ¬ ((mergeStatus ⟨[], some (60, 0)⟩
        (.obj [("position", .num 12)]) (7/2)).recentSeek = none)
    ∧ lookup (mergeStatus ⟨[], some (60, 0)⟩
        (.obj [("position", .num 12)]) (7/2)).status "position"
      = some (.num 12) := by
  refine ⟨by with_unfolding_all rfl, ?_, by with_unfolding_all rfl⟩
  intro hcon
  have h2 : (some ((60 : ℚ), (0 : ℚ)) : Option (ℚ × ℚ)) = none := by
    rw [← hcon]
    with_unfolding_all rfl
  exact Option.noConfusion h2

/-- Witness for C4 (amended): the same expired-window merge adopts the
reported position and behaves exactly like a merge with no pending
edit. -/
theorem c4_expiry_witness :
    mergeStatus ⟨[], some (60, 0)⟩ (.obj [("position", .num 12)]) (7/2)
      = ⟨[("position", .num 12)], some (60, 0)⟩ := by
  have h := c4_expiry ⟨[], some (60, 0)⟩ [("position", .num 12)] (7/2) 60 0 rfl
    (by norm_num)
  exact h.1

/-! ## C10: only the four exact top-level keys are stripped -/

theorem mem_deepFindFields (l : List (String × Raw)) (k : String) (v : Raw)
    (cands : List String) (c : String) (hm : (k, v) ∈ l) (hc : c ∈ cands)
    (hs : strContains (lowerStr k) c = true) : v ∈ deepFindFields l cands := by
  induction l with
  | nil => simp at hm
  | cons p rest ih =>
      rcases List.mem_cons.mp hm with he | hm2
      · subst he
        rw [show deepFindFields ((k, v) :: rest) cands
            = (cands.filter (fun c2 => strContains (lowerStr k) c2)).map (fun _ => v)
              ++ deepFindAll v cands ++ deepFindFields rest cands from rfl]
        refine List.mem_append_left _ (List.mem_append_left _ ?_)
        exact List.mem_map_of_mem _ (List.mem_filter.mpr ⟨hc, hs⟩)
      · obtain ⟨k1, v1⟩ := p
        rw [show deepFindFields ((k1, v1) :: rest) cands
            = (cands.filter (fun c2 => strContains (lowerStr k1) c2)).map (fun _ => v1)
              ++ deepFindAll v1 cands ++ deepFindFields rest cands from rfl]
        exact List.mem_append_right _ (ih hm2)

/-- C10: while a recent seek is active and unconfirmed, the merge
strips only the four exact top-level keys `seek`, `position`,
`elapsed`, `progress`: any other top-level key — even one whose name
merely contains such a substring — is merged unchanged, although the
resolver's deep search does collect values under such keys. -/
theorem c10_strip_only_exact_keys (st : VState) (fields : List (String × Raw))
    (now target ts : ℚ) (hact : st.recentSeek = some (target, ts))
    (hage : now - ts < 3)
    (hrep : ∀ r, reportedOf fields = some r → 2 < |r - target|) :
    (∀ k v, k ∉ seekKeys → (fields.map Prod.fst).Nodup →
        lookup fields k = some v →
        lookup (mergeStatus st (.obj fields) now).status k = some v)
    ∧ (∀ (l : List (String × Raw)) (k : String) (v : Raw) (c : String),
        (k, v) ∈ l → c ∈ seekSubstrs → strContains (lowerStr k) c = true →
        v ∈ deepFindFields l seekSubstrs) :=
  ⟨(c3_anti_bounce st fields now target ts hact hage hrep).2.2.2,
    fun l k v c hm hc hs => mem_deepFindFields l k v seekSubstrs c hm hc hs⟩

/-- Witness for C10: the key `seekPos` contains the substring `seek`
but is not one of the four exact names, so its value merges through
the anti-bounce path — and the deep search does collect it. -/
theorem c10_strip_only_exact_keys_witness :
    lookup (mergeStatus ⟨[], some (60, 0)⟩
        (.obj [("seekPos", .num 10)]) 1).status "seekPos" = some (.num 10)
    ∧ (.num 10 : Raw) ∈ deepFindFields [("seekPos", .num 10)] seekSubstrs := by
  have h := c10_strip_only_exact_keys ⟨[], some (60, 0)⟩ [("seekPos", .num 10)]
    1 60 0 rfl (by norm_num)
    (by intro r hr
        rw [show reportedOf [("seekPos", .num 10)] = none from by decide] at hr
        exact Option.noConfusion hr)
  refine ⟨h.1 "seekPos" (.num 10) (by decide) (by simp) rfl, ?_⟩
  exact h.2 [("seekPos", .num 10)] "seekPos" (.num 10) "seek"
    (List.mem_singleton.mpr rfl) (by decide) (by decide)

/-! ## C6: the volume range invariant -/

theorem volumeOK_setKey (l : List (String × Raw)) (k : String) (v : Raw)
    (hl : VolumeOKList l) (hv : k = "volume" → GoodVol v) :
    VolumeOKList (setKey l k v) := by
  intro w hw
  by_cases hk : k = "volume"
  · subst hk
    rw [lookup_setKey_self] at hw
    obtain rfl := Option.some.inj hw
    exact hv rfl
  · rw [lookup_setKey_ne _ _ _ _ (fun he => hk he.symm)] at hw
    exact hl w hw

theorem volumeOK_updateDict :
    ∀ (new old : List (String × Raw)), VolumeOKList old →
      (∀ v, ("volume", v) ∈ new → GoodVol v) → VolumeOKList (updateDict old new)
  | [], old, hold, _ => hold
  | (k1, v1) :: rest, old, hold, hnew => by
      rw [updateDict_cons]
      exact volumeOK_updateDict rest (setKey old k1 v1)
        (volumeOK_setKey old k1 v1 hold
          (fun hk => hnew v1 (by rw [← hk]; exact List.mem_cons_self _ _)))
        (fun v hv => hnew v (List.mem_cons_of_mem _ hv))

theorem mergeStatus_volumeOK (st : VState) (new : Raw) (now : ℚ)
    (h : VolumeOK st) (hg : GoodVolumePayload new) :
    VolumeOK (mergeStatus st new now) := by
  cases new with
  | obj fields =>
      have hnew : ∀ v, ("volume", v) ∈ fields → GoodVol v := hg
      have hstrip : ∀ v, ("volume", v) ∈ stripSeek fields → GoodVol v :=
        fun v hv => hnew v (List.mem_of_mem_filter hv)
      cases hrs : st.recentSeek with
      | none =>
          simp only [VolumeOK, mergeStatus, hrs]
          exact volumeOK_updateDict fields st.status h hnew
      | some pe =>
          simp only [VolumeOK, mergeStatus, hrs]
          by_cases ht : now - pe.2 < 3
          · rw [if_pos ht]
            cases hrep : reportedOf fields with
            | none =>
                simp only []
                exact volumeOK_updateDict _ st.status h hstrip
            | some r =>
                simp only []
                by_cases htol : |r - pe.1| ≤ 2
                · rw [if_pos htol]
                  exact volumeOK_updateDict fields st.status h hnew
                · rw [if_neg htol]
                  exact volumeOK_updateDict _ st.status h hstrip
          · rw [if_neg ht]
            exact volumeOK_updateDict fields st.status h hnew
  | null => exact h
  | num q => exact h
  | str s2 => exact h
  | bool b => exact h
  | arr l2 => exact h

theorem applyOp_volumeOK (st : VState) (op : Op) (h : VolumeOK st)
    (hg : GoodOp op) : VolumeOK (applyOp st op) := by
  cases op with
  | merge p now => exact mergeStatus_volumeOK st p now h hg
  | volDelta dl =>
      simp only [applyOp, VolumeOK, changeVolume]
      apply volumeOK_setKey _ _ _ h
      intro _
      refine ⟨_, rfl, ?_, ?_⟩
      · exact_mod_cast le_max_left 0 _
      · exact_mod_cast max_le (by norm_num) (min_le_left 100 _)
  | toggle =>
      simp only [applyOp, VolumeOK, togglePlay]
      exact volumeOK_setKey _ _ _ h (fun hk => absurd hk (by decide))
  | seekRel dl now =>
      simp only [applyOp, VolumeOK, seekRelative]
      apply volumeOK_setKey _ _ _ ?_ (fun hk => absurd hk (by decide))
      exact volumeOK_setKey _ _ _ h (fun hk => absurd hk (by decide))

/-- C6 (amended): the volume range invariant holds for every state
reachable by the public operations, provided every merged snapshot
reports (at most) a volume in `[0, 100]`.  Unrestricted merges break
the invariant — see the counterexample — because `_merge_status`
adopts any reported volume unchecked; the local operations alone
always preserve it (the clamp writes into `[0, 100]`, the toggle and
the seek never touch the volume key). -/
theorem c6_volume_invariant (ops : List Op) (h : ∀ op ∈ ops, GoodOp op) :
    VolumeOK (runOps ops) := by
  suffices haux : ∀ (l : List Op) (st : VState), (∀ op ∈ l, GoodOp op) →
      VolumeOK st → VolumeOK (l.foldl applyOp st) by
    refine haux ops initState h ?_
    intro v hv
    simp [initState, lookup] at hv
  intro l
  induction l with
  | nil => intro st _ hst; exact hst
  | cons op rest ih =>
      intro st hg hst
      exact ih _ (fun o ho => hg o (List.mem_cons_of_mem _ ho))
        (applyOp_volumeOK st op hst (hg op (List.mem_cons_self _ _)))

/-- Witness for C6 (amended): a well-behaved merge followed by a
volume bump keeps the stored volume in range (it is clamped to 100).
-/
theorem c6_volume_invariant_witness :
    VolumeOK (runOps [.merge (.obj [("volume", .num 30)]) 0, .volDelta 80])
    ∧ lookup (runOps [.merge (.obj [("volume", .num 30)]) 0,
        .volDelta 80]).status "volume" = some (.num 100) := by
  constructor
  · apply c6_volume_invariant
    intro op hop
    simp only [List.mem_cons, List.not_mem_nil, or_false] at hop
    rcases hop with rfl | rfl
    · intro v hv
      simp only [List.mem_cons, List.not_mem_nil, or_false] at hv
      injection hv with h1 h2
      subst h2
      exact ⟨30, rfl, by norm_num, by norm_num⟩
    · exact trivial
  · with_unfolding_all rfl

/-- Counterexample to C6 as stated: merging a snapshot that reports
volume 500 stores volume 500 — outside `[0, 100]` — because the merge
adopts reported volumes unchecked. -/
theorem c6_volume_invariant_counterexample :
    lookup (runOps [.merge (.obj [("volume", .num 500)]) 0]).status "volume"
      = some (.num 500)
    ∧ ¬ ((500 : ℚ) ≤ 100) := by
  constructor
  · with_unfolding_all rfl
  · norm_num
